import Mathlib

/-!
Verification of the agent-loop subsystem of the `g` repository.

This file gives a shallow embedding, in Lean 4, of the code the claims
C1..C10 are about:

* the agent loop `Loop.Run` together with `ensureThoughtSignatures`,
  `executeTool`, `callModelStreaming` and `callModelNonStreaming`
  (`src/internal/agent/loop.go`);
* the API client's retry machinery `doRequestWithRetry` / `retryDelay`
  and the SSE decoding goroutine of `GenerateStream`
  (the `api` package source file);
* the tool registry lookup (`Registry.Get` / `Registry.GetMCPRef`) and the
  `errorResult` convention of the built-in tools.

Modelling conventions:

* Go maps `map[string]interface{}` become association lists over a small
  value type `RVal`; Go `map` lookups become `List.lookup`.
* Machine-level wire parsing that the claims do not inspect
  (`json.Unmarshal`, `strconv.ParseFloat`, `time.ParseDuration`) is
  abstracted into pre-parsed fields / function parameters: an HTTP 429
  response carries the parsed `Retry-After` seconds (`none` when the
  header is absent or unparseable) and the parsed error-detail list
  (`none` when JSON unmarshalling fails, and a duration of `0`
  nanoseconds for a detail field that is absent or unparseable, exactly
  the collapsed output of Go's `parseDuration`).  Durations are rational
  numbers of nanoseconds.
* The HTTP transport, the model backend and the context's cancellation
  flag are function parameters, so a theorem quantifying over them covers
  every possible sequence of server answers.
* Channels become lists of events in emission order; "the channel is
  closed after the terminal event" becomes "the terminal event is the
  last element of the list".
-/

namespace Gmn

/-- Values stored in the `map[string]interface{}` result maps. -/
inductive RVal
  | str (s : String)
  | num (n : Int)
  | boolean (b : Bool)
deriving DecidableEq, Repr

/-- A Go `map[string]interface{}`, modelled as an association list. -/
abbrev RMap := List (String × RVal)

/-- `api.FunctionCall`: a tool call requested by the model. -/
structure FunctionCall where
  name : String
  args : RMap
deriving DecidableEq, Repr

/-- `api.FunctionResp`: a tool response sent back to the model. -/
structure FunctionResp where
  name : String
  response : RMap
deriving DecidableEq, Repr

/-- `api.Part`: one content part.  Absent JSON fields are `""` / `none`,
matching Go zero values. -/
structure Part where
  text : String := ""
  functionCall : Option FunctionCall := none
  functionResp : Option FunctionResp := none
  thoughtSignature : String := ""
deriving DecidableEq, Repr

/-- `api.Content`: a role together with its parts. -/
structure Content where
  role : String
  parts : List Part
deriving DecidableEq, Repr

/-- `api.UsageMetadata`. -/
structure UsageMetadata where
  promptTokenCount : Int := 0
  candidatesTokenCount : Int := 0
  totalTokenCount : Int := 0
deriving DecidableEq, Repr

/-- `api.Candidate` (grounding metadata omitted: no claim mentions it). -/
structure Candidate where
  content : Content
  finishReason : String := ""
deriving DecidableEq, Repr

/-- `api.InnerResponse`. -/
structure InnerResponse where
  candidates : List Candidate
  usageMetadata : UsageMetadata := {}
deriving DecidableEq, Repr

/-- `api.GenerateResponse` (traceId omitted: no claim mentions it). -/
structure GenerateResponse where
  response : InnerResponse
deriving DecidableEq, Repr

/-- `api.StreamEvent`.  The `type` field is the Go tag string
("start" / "content" / "tool_call" / "done" / "error"). -/
structure StreamEvent where
  type : String
  model : String := ""
  text : String := ""
  toolCall : Option FunctionCall := none
  usage : Option UsageMetadata := none
  error : String := ""
  finishReason : String := ""
  thoughtSignature : String := ""
deriving DecidableEq, Repr

/-- `agent.SyntheticThoughtSignature` (loop.go line 19). -/
def SyntheticThoughtSignature : String := "skip_thought_signature_validator"

/-- `agent.ensureThoughtSignatures` (loop.go lines 271-278).  The Go code
updates the slice in place; each index is written independently from its
own old value, so the loop is the pointwise map below. -/
def ensureThoughtSignatures (parts : List Part) : List Part :=
  parts.map fun part =>
    if part.functionCall.isSome = true ∧ part.thoughtSignature = "" then
      { part with thoughtSignature := SyntheticThoughtSignature }
    else
      part

/-! Transport / retry layer (`api` package, `doRequestWithRetry` and
`retryDelay`). -/

/-- One entry of the 429 error body's `details` list, after parsing.
Each field holds the output of Go's `parseDuration` in nanoseconds:
`0` when the JSON field is absent, empty or unparseable. -/
structure Detail429 where
  retryDelay : ℚ
  quotaResetDelay : ℚ
deriving DecidableEq, Repr

/-- An outbound HTTP request: method, URL, header set and the request
body bytes (modelled as a `String`). -/
structure HttpRequest where
  method : String
  url : String
  headers : List (String × String)
  body : String
deriving DecidableEq, Repr

/-- An HTTP response.  `retryAfterSecs` is the parsed `Retry-After`
header (`none` when the header is absent or `strconv.ParseFloat` fails);
`details` is the parsed error-detail list (`none` when `json.Unmarshal`
of the body fails). -/
structure HttpResponse where
  statusCode : Nat
  body : String
  retryAfterSecs : Option ℚ
  details : Option (List Detail429)
deriving DecidableEq, Repr

/-- `api.maxRetries` = 5. -/
def maxRetries : Nat := 5

/-- `api.baseRetryDelay` = 500 ms, in nanoseconds. -/
def baseRetryDelay : ℚ := 500000000

/-- `api.maxRetryDelay` = 30 s, in nanoseconds. -/
def maxRetryDelay : ℚ := 30000000000

/-- The `Retry-After` branch of `retryDelay`: a parsed header value is
used only when it is positive, converted from seconds to nanoseconds. -/
def headerDelay (retryAfterSecs : Option ℚ) : Option ℚ :=
  match retryAfterSecs with
  | some secs => if 0 < secs then some (secs * 1000000000) else none
  | none => none

/-- The detail-scanning loop of `retryDelay`: for each detail in order,
first `retryDelay` then `quotaResetDelay` is returned when positive. -/
def firstDetailDelay : List Detail429 → Option ℚ
  | [] => none
  | d :: rest =>
    if 0 < d.retryDelay then some d.retryDelay
    else if 0 < d.quotaResetDelay then some d.quotaResetDelay
    else firstDetailDelay rest

/-- The JSON-body branch of `retryDelay`: scanned only when the body
unmarshalled successfully. -/
def bodyDelay (details : Option (List Detail429)) : Option ℚ :=
  match details with
  | some ds => firstDetailDelay ds
  | none => none

/-- The exponential-backoff fallback of `retryDelay`:
`baseRetryDelay * 2^attempt`, capped at `maxRetryDelay`. -/
def backoffDelay (attempt : Nat) : ℚ :=
  let delay := baseRetryDelay * 2 ^ attempt
  if maxRetryDelay < delay then maxRetryDelay else delay

/-- `api.retryDelay` (the 429 wait computation): `Retry-After` header
first, then the error body's detail list, then exponential backoff. -/
def retryDelay (retryAfterSecs : Option ℚ) (details : Option (List Detail429))
    (attempt : Nat) : ℚ :=
  match headerDelay retryAfterSecs with
  | some d => d
  | none =>
    match bodyDelay details with
    | some d => d
    | none => backoffDelay attempt

/-- Outcome of `doRequestWithRetry`: a 200 response, or a Go error
(modelled by its message string). -/
inductive RetryOutcome
  | success (resp : HttpResponse)
  | failure (msg : String)
deriving DecidableEq, Repr

/-- Observable trace of one `doRequestWithRetry` call: its outcome, the
requests actually handed to `httpClient.Do` in order, and the waits
slept between attempts. -/
structure RetryTrace where
  outcome : RetryOutcome
  sent : List HttpRequest
  waits : List ℚ
deriving DecidableEq, Repr

/-- The retry loop of `api.doRequestWithRetry`.  `doHttp attempt req` is
the transport (`.error` = network failure from `httpClient.Do`,
`.ok` = a decoded response); `cancel attempt` tells whether the caller's
context fires during the post-attempt wait.  On every attempt after the
first, the request is rebuilt from the original URL, a clone of the
original header set, and the buffered body bytes. -/
def retryLoop (doHttp : Nat → HttpRequest → Except String HttpResponse)
    (cancel : Nat → Bool) (method origURL : String)
    (origHeaders : List (String × String)) (bodyBytes : String) :
    Nat → Nat → HttpRequest → String → List HttpRequest → List ℚ → RetryTrace
  | _, 0, _, lastErr, sent, waits =>
    ⟨.failure ("rate limited after " ++ toString maxRetries ++ " retries: " ++ lastErr),
     sent, waits⟩
  | attempt, fuel + 1, currentReq, _lastErr, sent, waits =>
    let req := if attempt = 0 then currentReq
               else ⟨method, origURL, origHeaders, bodyBytes⟩
    match doHttp attempt req with
    | .error e => ⟨.failure ("failed to send request: " ++ e), sent ++ [req], waits⟩
    | .ok resp =>
      if resp.statusCode = 200 then
        ⟨.success resp, sent ++ [req], waits⟩
      else if resp.statusCode ≠ 429 then
        ⟨.failure ("API error (status " ++ toString resp.statusCode ++ "): " ++ resp.body),
         sent ++ [req], waits⟩
      else
        let delay := retryDelay resp.retryAfterSecs resp.details attempt
        let nextErr := "API error (status 429): " ++ resp.body
        if cancel attempt then
          ⟨.failure "context canceled", sent ++ [req], waits⟩
        else
          retryLoop doHttp cancel method origURL origHeaders bodyBytes
            (attempt + 1) fuel ⟨method, origURL, origHeaders, bodyBytes⟩
            nextErr (sent ++ [req]) (waits ++ [delay])

/-- `api.doRequestWithRetry`: runs the `for attempt := 0; attempt <=
maxRetries` loop.  `origURL` and `origHeaders` are captured from the
incoming request before the first attempt. -/
def doRequestWithRetry (doHttp : Nat → HttpRequest → Except String HttpResponse)
    (cancel : Nat → Bool) (httpReq : HttpRequest) (bodyBytes : String) : RetryTrace :=
  retryLoop doHttp cancel httpReq.method httpReq.url httpReq.headers bodyBytes
    0 (maxRetries + 1) httpReq "" [] []

/-! Tool dispatcher (`tools.Registry`, `agent.executeTool`) and the
built-in tools' `errorResult` convention. -/

/-- `tools.ToolResult`: the standard return value of built-in tool
execution (a content map plus an error flag). -/
structure ToolResult where
  content : RMap
  isError : Bool := false

/-- A built-in tool, reduced to its `Execute` method.  Go's
`(*ToolResult, error)` return becomes `Except`: `.error` is a non-nil Go
error, `.ok` a non-nil result. -/
structure Tool where
  execute : RMap → Except String ToolResult

/-- `tools.errorResult` (read_file.go lines 131-136): the convention all
built-in tools use for argument and runtime failures — an error-flagged
result with the message under the "error" key, and a nil Go error. -/
def errorResult (msg : String) : ToolResult :=
  { content := [("error", RVal.str msg)], isError := true }

/-- `tools.MCPToolRef`. -/
structure MCPToolRef where
  serverName : String
  toolName : String
deriving DecidableEq, Repr

/-- A remote (MCP) client, reduced to its `CallTool` method. -/
structure MCPClient where
  callTool : String → RMap → Except String String

/-- `tools.Registry`: built-in tools keyed by name, and MCP tool
references keyed by (namespaced) name.  Go's maps become association
lists; `List.lookup` models map indexing. -/
structure Registry where
  builtins : List (String × Tool)
  mcp : List (String × MCPToolRef)

/-- `agent.executeTool` (loop.go lines 243-267): built-in registry by
exact name first, then the MCP registry; an unresolved name yields the
"unknown tool" error. -/
def executeTool (registry : Registry) (mcpClients : List (String × MCPClient))
    (fc : FunctionCall) : Except String RMap :=
  match registry.builtins.lookup fc.name with
  | some tool =>
    match tool.execute fc.args with
    | .error e => .error e
    | .ok result => .ok result.content
  | none =>
    match registry.mcp.lookup fc.name with
    | some ref =>
      match mcpClients.lookup ref.serverName with
      | none => .error ("MCP server \"" ++ ref.serverName ++ "\" not connected")
      | some client =>
        match client.callTool ref.toolName fc.args with
        | .error e => .error e
        | .ok resultText => .ok [("result", RVal.str resultText)]
    | none => .error ("unknown tool: " ++ fc.name)

/-! Turn controller (`agent.Loop.Run`). -/

/-- One call the controller makes on the output `Formatter` (the Sink). -/
inductive SinkWrite
  | streamEvent (e : StreamEvent)
  | response (r : GenerateResponse)
  | toolCall (name : String) (args : RMap)
  | toolResult (name : String) (result : RMap) (isError : Bool)
deriving DecidableEq, Repr

/-- The result map `Loop.Run` stores for one function call: the
dispatcher's map on success, `{"error": msg}` when the dispatcher
returned a Go error (loop.go lines 102-105). -/
def execResult (exec : FunctionCall → Except String RMap) (fc : FunctionCall) : RMap :=
  match exec fc with
  | .ok result => result
  | .error msg => [("error", RVal.str msg)]

/-- Whether the dispatcher returned a Go error for a call (the
`execErr != nil` flag passed to `WriteToolResult`). -/
def execIsErr (exec : FunctionCall → Except String RMap) (fc : FunctionCall) : Bool :=
  match exec fc with
  | .ok _ => false
  | .error _ => true

/-- Step 5 of `Loop.Run` for a single function call: the
`FunctionResponse` part appended to the result parts, and the Sink
writes (`WriteToolCall` before execution, `WriteToolResult` after). -/
def dispatchCall (exec : FunctionCall → Except String RMap) (fc : FunctionCall) :
    Part × List SinkWrite :=
  ({ functionResp := some ⟨fc.name, execResult exec fc⟩ },
   [SinkWrite.toolCall fc.name fc.args,
    SinkWrite.toolResult fc.name (execResult exec fc) (execIsErr exec fc)])

/-- How one `Loop.Run` invocation ended. -/
inductive RunOutcome
  | success
  | fatal (msg : String)
  | budget (msg : String)
deriving DecidableEq, Repr

/-- Observable result of `Loop.Run`: the outcome, the number of
transport calls made, the final conversation history, and the Sink
writes (tool calls / tool results; the writes made inside `callModel`
are accounted for separately by the streaming embedding). -/
structure RunResult where
  outcome : RunOutcome
  calls : Nat
  contents : List Content
  sink : List SinkWrite
deriving DecidableEq, Repr

/-- The message of the budget-exceeded error
(`fmt.Errorf("agent loop: maximum turns (%d) reached", MaxTurns)`). -/
def budgetMessage (n : Nat) : String :=
  "agent loop: maximum turns (" ++ toString n ++ ") reached"

/-- The turn loop of `agent.Loop.Run` (loop.go lines 54-135).
`model turn` is the outcome of `callModel` on the given turn (parts
collected, or an error); `exec` is the dispatcher (`executeTool` in the
real program); `ctxDone turn` is the context's cancellation flag at the
top of the turn.  `remaining` counts the turns left before the budget
check fails. -/
def runFrom (model : Nat → Except String (List Part))
    (exec : FunctionCall → Except String RMap) (ctxDone : Nat → Bool)
    (maxTurns : Nat) :
    Nat → Nat → List Content → Nat → List SinkWrite → RunResult
  | _, 0, contents, calls, sink =>
    ⟨.budget (budgetMessage maxTurns), calls, contents, sink⟩
  | turn, remaining + 1, contents, calls, sink =>
    if ctxDone turn then ⟨.fatal "context canceled", calls, contents, sink⟩
    else
      match model turn with
      | .error e => ⟨.fatal e, calls + 1, contents, sink⟩
      | .ok modelParts =>
        let functionCalls := modelParts.filterMap (fun p => p.functionCall)
        if functionCalls.length = 0 then
          ⟨.success, calls + 1, contents, sink⟩
        else
          let signedParts := ensureThoughtSignatures modelParts
          let callResults := functionCalls.map (dispatchCall exec)
          let resultParts := callResults.map Prod.fst
          runFrom model exec ctxDone maxTurns (turn + 1) remaining
            (contents ++ [⟨"model", signedParts⟩, ⟨"user", resultParts⟩])
            (calls + 1)
            (sink ++ (callResults.map Prod.snd).flatten)

/-- `agent.Loop.Run`, starting at turn 0 with `MaxTurns` turns of
budget. -/
def loopRun (model : Nat → Except String (List Part))
    (exec : FunctionCall → Except String RMap) (ctxDone : Nat → Bool)
    (maxTurns : Nat) (initContents : List Content) : RunResult :=
  runFrom model exec ctxDone maxTurns 0 maxTurns initContents 0 []

/-! Event normalizer: `Loop.callModelStreaming` (loop.go lines 147-214)
and `Loop.callModelNonStreaming` (lines 216-240). -/

/-- The event loop of `callModelStreaming`, processing events in arrival
order while threading the collected parts, the running text buffer, the
latest text signature, and the Sink writes.  An `error` event aborts the
whole call with the event's message. -/
def callModelStreamingGo :
    List StreamEvent → List Part → String → String → List SinkWrite →
    Except String (List Part × List SinkWrite)
  | [], parts, currentText, lastTextSignature, sink =>
    .ok ((if currentText ≠ "" then
            parts ++ [{ text := currentText, thoughtSignature := lastTextSignature }]
          else parts), sink)
  | event :: rest, parts, currentText, lastTextSignature, sink =>
    if event.type = "error" then
      .error event.error
    else if event.type = "content" then
      let newText := if event.text ≠ "" then currentText ++ event.text else currentText
      let newSink := if event.text ≠ "" then sink ++ [SinkWrite.streamEvent event] else sink
      let newSig := if event.thoughtSignature ≠ "" then event.thoughtSignature
                    else lastTextSignature
      callModelStreamingGo rest parts newText newSig newSink
    else if event.type = "tool_call" then
      let flushed := if currentText ≠ "" then
                       parts ++ [{ text := currentText, thoughtSignature := lastTextSignature }]
                     else parts
      let newText := if currentText ≠ "" then "" else currentText
      let newSig := if currentText ≠ "" then "" else lastTextSignature
      let withCall :=
        match event.toolCall with
        | some fc =>
          flushed ++ [{ functionCall := some fc,
                        thoughtSignature := if event.thoughtSignature ≠ "" then
                                              event.thoughtSignature
                                            else "" }]
        | none => flushed
      callModelStreamingGo rest withCall newText newSig sink
    else if event.type = "done" then
      callModelStreamingGo rest parts currentText lastTextSignature
        (sink ++ [SinkWrite.streamEvent event])
    else if event.type = "start" then
      callModelStreamingGo rest parts currentText lastTextSignature
        (sink ++ [SinkWrite.streamEvent event])
    else
      callModelStreamingGo rest parts currentText lastTextSignature sink

/-- `Loop.callModelStreaming` applied to the given event sequence,
starting from the empty accumulator state. -/
def callModelStreamingE (events : List StreamEvent) :
    Except String (List Part × List SinkWrite) :=
  callModelStreamingGo events [] "" "" []

/-- The part collection of `Loop.callModelNonStreaming`: every part of
every candidate, in order. -/
def collectParts (resp : GenerateResponse) : List Part :=
  resp.response.candidates.flatMap (fun candidate => candidate.content.parts)

/-- `Loop.callModelNonStreaming`: collects the parts and hands the whole
response to the Sink only when no part is a function call. -/
def callModelNonStreamingE (resp : GenerateResponse) : List Part × List SinkWrite :=
  let parts := collectParts resp
  let hasFunctionCalls := parts.any (fun p => p.functionCall.isSome)
  (parts, if hasFunctionCalls then [] else [SinkWrite.response resp])

/-! SSE decoding: the goroutine of `api.Client.GenerateStream`
(lines 439-508 of the api source file).  The response body is the list
of lines read before the reader fails; `endErr` is `none` when the read
fails with `io.EOF` (natural close) and `some msg` for any other read
failure.  `decode` stands for `json.Unmarshal` into a chunk. -/

/-- Events emitted for one part of a streamed chunk: a `content` event
when the part has text, then a `tool_call` event when it has a function
call, each carrying the part's continuation token. -/
def partEvents (p : Part) : List StreamEvent :=
  (if p.text ≠ "" then
     [{ type := "content", text := p.text, thoughtSignature := p.thoughtSignature }]
   else []) ++
  (match p.functionCall with
   | some fc => [{ type := "tool_call", toolCall := some fc,
                   thoughtSignature := p.thoughtSignature }]
   | none => [])

/-- The per-chunk finish-reason update: each candidate with a non-empty
`finishReason` overwrites the running value. -/
def updateFinish (finishReason : String) (candidates : List Candidate) : String :=
  candidates.foldl
    (fun acc candidate =>
      if candidate.finishReason ≠ "" then candidate.finishReason else acc)
    finishReason

/-- The read loop of `GenerateStream`'s goroutine: returns the events it
pushes (excluding the surrounding `start` and `done`), plus the final
captured usage metadata and finish reason. -/
def streamGo (decode : String → Option GenerateResponse) (endErr : Option String) :
    List String → Option UsageMetadata → String →
    List StreamEvent × Option UsageMetadata × String
  | [], usage, finishReason =>
    ((match endErr with
      | some e => [{ type := "error", error := e }]
      | none => []), usage, finishReason)
  | line :: rest, usage, finishReason =>
    let l := line.trim
    if l = "" ∨ l.startsWith "data: " = false then
      streamGo decode endErr rest usage finishReason
    else
      let data := l.drop 6
      if data = "[DONE]" then ([], usage, finishReason)
      else
        match decode data with
        | none => streamGo decode endErr rest usage finishReason
        | some chunk =>
          let newUsage := if 0 < chunk.response.usageMetadata.totalTokenCount then
                            some chunk.response.usageMetadata
                          else usage
          let newFinish := updateFinish finishReason chunk.response.candidates
          let evs := chunk.response.candidates.flatMap
            (fun candidate => candidate.content.parts.flatMap partEvents)
          let result := streamGo decode endErr rest newUsage newFinish
          (evs ++ result.1, result.2)

/-- The full event sequence pushed onto `GenerateStream`'s channel, in
emission order: the unconditional `start` event, the decoded events, and
the trailing `done` event carrying the captured usage metadata and
finish reason.  Channel closure is the end of the list. -/
def generateStreamEvents (decode : String → Option GenerateResponse)
    (model : String) (lines : List String) (endErr : Option String) :
    List StreamEvent :=
  let result := streamGo decode endErr lines none ""
  { type := "start", model := model } ::
    result.1 ++ [{ type := "done", usage := result.2.1, finishReason := result.2.2 }]

/-! Reference (spec-side) definitions, used to state the claims. -/

/-- Concatenation of a list of strings, in order. -/
def joinAll : List String → String
  | [] => ""
  | s :: rest => s ++ joinAll rest

/-- The delay a single error detail contributes, following the claim's
words: its `retryDelay` when positive, else its `quotaResetDelay` when
positive, else nothing. -/
def sourceDelay (d : Detail429) : Option ℚ :=
  if 0 < d.retryDelay then some d.retryDelay
  else if 0 < d.quotaResetDelay then some d.quotaResetDelay
  else none

/-- A pure `content` stream event with the given text segment. -/
def contentEv (text : String) : StreamEvent :=
  { type := "content", text := text }

/-- A `tool_call` stream event carrying the given function call. -/
def toolCallEv (fc : FunctionCall) : StreamEvent :=
  { type := "tool_call", toolCall := some fc }

/-- The candidate part list a buffered call equivalent to the streamed
interleaving `content* tool_call content*` would carry: the first
segments merged into one text part (when their concatenation is
non-empty), the function call, then the remaining segments merged. -/
def equivCandidateParts (xs : List String) (fc : FunctionCall) (ys : List String) :
    List Part :=
  (if joinAll xs = "" then [] else [{ text := joinAll xs }]) ++
  [{ functionCall := some fc }] ++
  (if joinAll ys = "" then [] else [{ text := joinAll ys }])

/-- A buffered response with a single candidate holding the given
parts. -/
def respOfParts (ps : List Part) : GenerateResponse :=
  ⟨⟨[⟨⟨"model", ps⟩, ""⟩], {}⟩⟩

/-- The Sink writes `callModelStreaming` is expected to make: every
`start` and `done` event, and every `content` event with non-empty text,
in arrival order. -/
def forwardedWrites (events : List StreamEvent) : List SinkWrite :=
  (events.filter (fun e =>
    e.type == "start" || e.type == "done" ||
      (e.type == "content" && e.text != ""))).map SinkWrite.streamEvent

/-- The text segments of the `content` events of a stream, in order. -/
def contentTexts (events : List StreamEvent) : List String :=
  (events.filter (fun e => e.type == "content")).map (fun e => e.text)

/-- The function calls of the `tool_call` events of a stream, in
order. -/
def streamToolCalls (events : List StreamEvent) : List FunctionCall :=
  (events.filter (fun e => e.type == "tool_call")).filterMap (fun e => e.toolCall)

/-- The chunks a stream body decodes to, in order: each `data: ` line
before the `[DONE]` sentinel that unmarshals successfully. -/
def decodedChunks (decode : String → Option GenerateResponse) :
    List String → List GenerateResponse
  | [] => []
  | line :: rest =>
    let l := line.trim
    if l = "" ∨ l.startsWith "data: " = false then decodedChunks decode rest
    else if l.drop 6 = "[DONE]" then []
    else
      match decode (l.drop 6) with
      | none => decodedChunks decode rest
      | some chunk => chunk :: decodedChunks decode rest

/-- The usage metadata of the last decoded chunk with a positive total
token count, if any. -/
def capturedUsage (decode : String → Option GenerateResponse)
    (lines : List String) : Option UsageMetadata :=
  ((decodedChunks decode lines).filter (fun c =>
    decide (0 < c.response.usageMetadata.totalTokenCount))).getLast?.map
    (fun c => c.response.usageMetadata)

/-- The finish reason of the last decoded candidate carrying a non-empty
one, defaulting to the empty string. -/
def capturedFinish (decode : String → Option GenerateResponse)
    (lines : List String) : String :=
  ((((decodedChunks decode lines).flatMap (fun c => c.response.candidates)).filter
    (fun cd => cd.finishReason != "")).getLast?.map
    (fun cd => cd.finishReason)).getD ""

/-! Theorems. -/

/-- C4: after continuation-token synthesis, every function-call part that
lacked a token carries exactly the fixed placeholder
`SyntheticThoughtSignature` (which is non-empty), every function-call
part that already carried a token is unchanged, all parts that are not
function calls are unchanged, and hence every function-call part in the
part list appended to conversation history carries a non-empty token. -/
theorem c4_thought_signature_synthesis (parts : List Part) :
    (ensureThoughtSignatures parts).length = parts.length ∧
    (∀ (i : Nat) (p : Part), parts[i]? = some p →
       p.functionCall.isSome = true → p.thoughtSignature = "" →
       (ensureThoughtSignatures parts)[i]? =
         some { p with thoughtSignature := SyntheticThoughtSignature }) ∧
    (∀ (i : Nat) (p : Part), parts[i]? = some p →
       p.functionCall.isSome = true → p.thoughtSignature ≠ "" →
       (ensureThoughtSignatures parts)[i]? = some p) ∧
    (∀ (i : Nat) (p : Part), parts[i]? = some p → p.functionCall = none →
       (ensureThoughtSignatures parts)[i]? = some p) ∧
    (∀ p ∈ ensureThoughtSignatures parts, p.functionCall.isSome = true →
       p.thoughtSignature ≠ "") ∧
    SyntheticThoughtSignature ≠ "" := by
  refine ⟨by simp [ensureThoughtSignatures], ?_, ?_, ?_, ?_, by decide⟩
  · intro i p hp hfc hsig
    simp [ensureThoughtSignatures, List.getElem?_map, hp, hfc, hsig]
  · intro i p hp hfc hsig
    simp [ensureThoughtSignatures, List.getElem?_map, hp, hfc, hsig]
  · intro i p hp hfc
    simp [ensureThoughtSignatures, List.getElem?_map, hp, hfc]
  · intro p hp hfc
    rcases List.mem_map.mp hp with ⟨q, _, rfl⟩
    by_cases h : q.functionCall.isSome = true ∧ q.thoughtSignature = ""
    · rw [if_pos h] at hfc ⊢
      show SyntheticThoughtSignature ≠ ""
      decide
    · rw [if_neg h] at hfc ⊢
      intro hempty
      exact h ⟨hfc, hempty⟩

/-- Witness for C4 at a concrete one-part list. -/
theorem c4_thought_signature_synthesis_witness :
    (ensureThoughtSignatures [{ functionCall := some ⟨"list_directory", []⟩ }])[0]? =
      some { functionCall := some ⟨"list_directory", []⟩,
             thoughtSignature := SyntheticThoughtSignature } :=
  (c4_thought_signature_synthesis
    [{ functionCall := some ⟨"list_directory", []⟩ }]).2.1 0
    { functionCall := some ⟨"list_directory", []⟩ } rfl rfl rfl

/-- C7: `executeTool` resolves a requested name against the built-in
registry first, then against the remote registry, and an unresolved name
yields the error `"unknown tool: "` followed by the requested name, with
no tool executed. -/
theorem c7_resolution_order (registry : Registry)
    (mcpClients : List (String × MCPClient)) (fc : FunctionCall) :
    (∀ tool, registry.builtins.lookup fc.name = some tool →
       executeTool registry mcpClients fc =
         (match tool.execute fc.args with
          | .error e => .error e
          | .ok result => .ok result.content)) ∧
    (registry.builtins.lookup fc.name = none →
       ∀ ref, registry.mcp.lookup fc.name = some ref →
         executeTool registry mcpClients fc =
           (match mcpClients.lookup ref.serverName with
            | none => .error ("MCP server \"" ++ ref.serverName ++ "\" not connected")
            | some client =>
              match client.callTool ref.toolName fc.args with
              | .error e => .error e
              | .ok resultText => .ok [("result", RVal.str resultText)])) ∧
    (registry.builtins.lookup fc.name = none →
       registry.mcp.lookup fc.name = none →
       executeTool registry mcpClients fc =
         .error ("unknown tool: " ++ fc.name)) := by
  refine ⟨?_, ?_, ?_⟩
  · intro tool h
    simp [executeTool, h]
  · intro h1 ref h2
    simp [executeTool, h1, h2]
  · intro h1 h2
    simp [executeTool, h1, h2]

/-- Witness for C7: the empty registry resolves nothing, so any name
yields the unknown-tool error. -/
theorem c7_resolution_order_witness :
    executeTool ⟨[], []⟩ [] ⟨"mystery", []⟩ =
      .error ("unknown tool: " ++ "mystery") :=
  (c7_resolution_order ⟨[], []⟩ [] ⟨"mystery", []⟩).2.2 rfl rfl

/-- C10: when a built-in tool returns a `ToolResult` with `IsError` set
together with a nil Go error (the `errorResult` convention), the
controller discards the flag: `executeTool` returns the content map with
no error, and the dispatch step reports the result to the Sink's
`WriteToolResult` with `isError = false`, the failure being visible only
inside the content map. -/
theorem c10_is_error_flag_discarded (registry : Registry)
    (mcpClients : List (String × MCPClient)) (fc : FunctionCall)
    (tool : Tool) (r : ToolResult)
    (hlook : registry.builtins.lookup fc.name = some tool)
    (hexec : tool.execute fc.args = .ok r)
    (_hflag : r.isError = true) :
    executeTool registry mcpClients fc = .ok r.content ∧
    dispatchCall (executeTool registry mcpClients) fc =
      ({ functionResp := some ⟨fc.name, r.content⟩ },
       [SinkWrite.toolCall fc.name fc.args,
        SinkWrite.toolResult fc.name r.content false]) := by
  have h : executeTool registry mcpClients fc = .ok r.content := by
    simp [executeTool, hlook, hexec]
  exact ⟨h, by simp [dispatchCall, execResult, execIsErr, h]⟩

/-- Witness for C10 at a registry holding one tool that answers with
`errorResult`. -/
theorem c10_is_error_flag_discarded_witness :
    executeTool ⟨[("read_file", ⟨fun _ => .ok (errorResult "file not found")⟩)], []⟩
        [] ⟨"read_file", []⟩ = .ok [("error", RVal.str "file not found")] ∧
    dispatchCall
        (executeTool
          ⟨[("read_file", ⟨fun _ => .ok (errorResult "file not found")⟩)], []⟩ [])
        ⟨"read_file", []⟩ =
      ({ functionResp := some ⟨"read_file", [("error", RVal.str "file not found")]⟩ },
       [SinkWrite.toolCall "read_file" [],
        SinkWrite.toolResult "read_file" [("error", RVal.str "file not found")] false]) :=
  c10_is_error_flag_discarded
    ⟨[("read_file", ⟨fun _ => .ok (errorResult "file not found")⟩)], []⟩ []
    ⟨"read_file", []⟩ ⟨fun _ => .ok (errorResult "file not found")⟩
    (errorResult "file not found") rfl rfl rfl

/-- The detail-scanning loop of `retryDelay` returns the first detail
delay in the claim's sense. -/
theorem firstDetailDelay_eq_findSome (ds : List Detail429) :
    firstDetailDelay ds = ds.findSome? sourceDelay := by
  induction ds with
  | nil => rfl
  | cons d rest ih =>
    simp only [firstDetailDelay, List.findSome?_cons, sourceDelay]
    split_ifs with h1 h2 <;> simp [ih]

/-- C3: the retry delay for a 429 equals the first available source in
priority order — a positive `Retry-After` value (in seconds), otherwise
the first positive `retryDelay`/`quotaResetDelay` in the error body's
detail list, otherwise `min(500ms * 2^attempt, 30s)`. -/
theorem c3_retry_delay_priority (retryAfterSecs : Option ℚ)
    (details : Option (List Detail429)) (attempt : Nat) :
    (∀ secs, retryAfterSecs = some secs → 0 < secs →
       retryDelay retryAfterSecs details attempt = secs * 1000000000) ∧
    ((retryAfterSecs = none ∨ ∃ secs, retryAfterSecs = some secs ∧ ¬ 0 < secs) →
       ((∀ ds d, details = some ds → ds.findSome? sourceDelay = some d →
           retryDelay retryAfterSecs details attempt = d) ∧
        ((details = none ∨
            ∃ ds, details = some ds ∧ ds.findSome? sourceDelay = none) →
           retryDelay retryAfterSecs details attempt =
             min (baseRetryDelay * 2 ^ attempt) maxRetryDelay))) := by
  constructor
  · intro secs h hpos
    subst h
    simp [retryDelay, headerDelay, hpos]
  · intro hra
    have hhd : headerDelay retryAfterSecs = none := by
      rcases hra with h | ⟨secs, h, hn⟩
      · simp [headerDelay, h]
      · simp [headerDelay, h, hn]
    constructor
    · intro ds d hds hfind
      simp [retryDelay, hhd, bodyDelay, hds, firstDetailDelay_eq_findSome, hfind]
    · intro hb
      have hbd : bodyDelay details = none := by
        rcases hb with h | ⟨ds, h, hfind⟩
        · simp [bodyDelay, h]
        · simp [bodyDelay, h, firstDetailDelay_eq_findSome, hfind]
      have hback : backoffDelay attempt =
          min (baseRetryDelay * 2 ^ attempt) maxRetryDelay := by
        simp only [backoffDelay, min_def]
        split_ifs <;> linarith
      simp [retryDelay, hhd, hbd, hback]

/-- Witness for C3: a positive `Retry-After` of 2 seconds wins over
everything else. -/
theorem c3_retry_delay_priority_witness :
    retryDelay (some 2) none 0 = 2 * 1000000000 :=
  (c3_retry_delay_priority (some 2) none 0).1 2 rfl (by norm_num)

/-- One 429 iteration of the retry loop: the attempt's request is sent,
the computed delay is slept, and the loop moves to the next attempt with
a rebuilt request and the attempt's error message recorded. -/
theorem retryLoop_429_step (doHttp : Nat → HttpRequest → Except String HttpResponse)
    (cancel : Nat → Bool) (method origURL : String)
    (origHeaders : List (String × String)) (bodyBytes : String)
    (attempt fuel : Nat) (currentReq : HttpRequest) (lastErr : String)
    (sent : List HttpRequest) (waits : List ℚ) (resp : HttpResponse)
    (hdo : doHttp attempt
      (if attempt = 0 then currentReq
       else ⟨method, origURL, origHeaders, bodyBytes⟩) = .ok resp)
    (h429 : resp.statusCode = 429) (hc : cancel attempt = false) :
    retryLoop doHttp cancel method origURL origHeaders bodyBytes
        attempt (fuel + 1) currentReq lastErr sent waits =
      retryLoop doHttp cancel method origURL origHeaders bodyBytes
        (attempt + 1) fuel ⟨method, origURL, origHeaders, bodyBytes⟩
        ("API error (status 429): " ++ resp.body)
        (sent ++ [if attempt = 0 then currentReq
                  else ⟨method, origURL, origHeaders, bodyBytes⟩])
        (waits ++ [retryDelay resp.retryAfterSecs resp.details attempt]) := by
  simp only [retryLoop]
  rw [hdo]
  simp [h429, hc]

/-- C2: when every response is HTTP 429 and the caller never cancels,
`doRequestWithRetry` sends exactly `maxRetries + 1 = 6` requests (5
retries), fails with an error embedding the last server response body,
and every request sent carries the byte-identical buffered body and the
original (cloned) header set. -/
theorem c2_retry_until_exhausted
    (doHttp : Nat → HttpRequest → Except String HttpResponse)
    (cancel : Nat → Bool) (req : HttpRequest) (bodyBytes : String)
    (resps : Nat → HttpResponse)
    (hbody : req.body = bodyBytes)
    (hcancel : ∀ i, cancel i = false)
    (hdo : ∀ i r, doHttp i r = .ok (resps i))
    (h429 : ∀ i, (resps i).statusCode = 429) :
    (doRequestWithRetry doHttp cancel req bodyBytes).sent.length = maxRetries + 1 ∧
    (doRequestWithRetry doHttp cancel req bodyBytes).outcome =
      .failure ("rate limited after 5 retries: API error (status 429): " ++
        (resps maxRetries).body) ∧
    (∀ r ∈ (doRequestWithRetry doHttp cancel req bodyBytes).sent,
       r.body = bodyBytes ∧ r.headers = req.headers) := by
  have key : doRequestWithRetry doHttp cancel req bodyBytes =
      ⟨.failure ("rate limited after " ++ toString maxRetries ++ " retries: " ++
          ("API error (status 429): " ++ (resps 5).body)),
       [req, ⟨req.method, req.url, req.headers, bodyBytes⟩,
        ⟨req.method, req.url, req.headers, bodyBytes⟩,
        ⟨req.method, req.url, req.headers, bodyBytes⟩,
        ⟨req.method, req.url, req.headers, bodyBytes⟩,
        ⟨req.method, req.url, req.headers, bodyBytes⟩],
       [retryDelay (resps 0).retryAfterSecs (resps 0).details 0,
        retryDelay (resps 1).retryAfterSecs (resps 1).details 1,
        retryDelay (resps 2).retryAfterSecs (resps 2).details 2,
        retryDelay (resps 3).retryAfterSecs (resps 3).details 3,
        retryDelay (resps 4).retryAfterSecs (resps 4).details 4,
        retryDelay (resps 5).retryAfterSecs (resps 5).details 5]⟩ := by
    show retryLoop doHttp cancel req.method req.url req.headers bodyBytes
        0 (maxRetries + 1) req "" [] [] = _
    rw [show maxRetries + 1 = 5 + 1 from rfl]
    rw [retryLoop_429_step doHttp cancel req.method req.url req.headers bodyBytes
      0 5 req "" [] [] (resps 0) (by simpa using hdo 0 req) (h429 0) (hcancel 0)]
    rw [show (5 : Nat) = 4 + 1 from rfl]
    rw [retryLoop_429_step doHttp cancel req.method req.url req.headers bodyBytes
      1 4 _ _ _ _ (resps 1) (by simpa using hdo 1 _) (h429 1) (hcancel 1)]
    rw [show (4 : Nat) = 3 + 1 from rfl]
    rw [retryLoop_429_step doHttp cancel req.method req.url req.headers bodyBytes
      2 3 _ _ _ _ (resps 2) (by simpa using hdo 2 _) (h429 2) (hcancel 2)]
    rw [show (3 : Nat) = 2 + 1 from rfl]
    rw [retryLoop_429_step doHttp cancel req.method req.url req.headers bodyBytes
      3 2 _ _ _ _ (resps 3) (by simpa using hdo 3 _) (h429 3) (hcancel 3)]
    rw [show (2 : Nat) = 1 + 1 from rfl]
    rw [retryLoop_429_step doHttp cancel req.method req.url req.headers bodyBytes
      4 1 _ _ _ _ (resps 4) (by simpa using hdo 4 _) (h429 4) (hcancel 4)]
    rw [show (1 : Nat) = 0 + 1 from rfl]
    rw [retryLoop_429_step doHttp cancel req.method req.url req.headers bodyBytes
      5 0 _ _ _ _ (resps 5) (by simpa using hdo 5 _) (h429 5) (hcancel 5)]
    simp [retryLoop]
  refine ⟨?_, ?_, ?_⟩
  · rw [key]
    rfl
  · rw [key]
    rfl
  · rw [key]
    intro r hr
    simp only [List.mem_cons, List.not_mem_nil, or_false] at hr
    rcases hr with rfl | rfl | rfl | rfl | rfl | rfl <;>
      first
        | exact ⟨hbody, rfl⟩
        | exact ⟨rfl, rfl⟩

/-- Witness for C2 with a constant 429 server. -/
theorem c2_retry_until_exhausted_witness :
    (doRequestWithRetry (fun _ _ => .ok ⟨429, "quota exceeded", none, none⟩)
        (fun _ => false) ⟨"POST", "https://e", [("Content-Type", "application/json")],
        "reqbody"⟩ "reqbody").sent.length = maxRetries + 1 ∧
    (doRequestWithRetry (fun _ _ => .ok ⟨429, "quota exceeded", none, none⟩)
        (fun _ => false) ⟨"POST", "https://e", [("Content-Type", "application/json")],
        "reqbody"⟩ "reqbody").outcome =
      .failure ("rate limited after 5 retries: API error (status 429): " ++
        "quota exceeded") := by
  have h := c2_retry_until_exhausted
    (fun _ _ => .ok ⟨429, "quota exceeded", none, none⟩) (fun _ => false)
    ⟨"POST", "https://e", [("Content-Type", "application/json")], "reqbody"⟩
    "reqbody" (fun _ => ⟨429, "quota exceeded", none, none⟩)
    rfl (fun _ => rfl) (fun _ _ => rfl) (fun _ => rfl)
  exact ⟨h.1, h.2.1⟩

/-- When the context never fires and every model response carries at
least one function call, the loop burns its whole budget: one transport
call per remaining turn, ending in the budget-exceeded error. -/
theorem runFrom_budget (model : Nat → Except String (List Part))
    (exec : FunctionCall → Except String RMap) (ctxDone : Nat → Bool)
    (maxTurns : Nat) (hctx : ∀ t, ctxDone t = false)
    (hm : ∀ t, ∃ parts, model t = .ok parts ∧
      parts.filterMap (fun p => p.functionCall) ≠ []) :
    ∀ remaining turn contents calls sink,
      (runFrom model exec ctxDone maxTurns turn remaining contents calls sink).outcome =
        .budget (budgetMessage maxTurns) ∧
      (runFrom model exec ctxDone maxTurns turn remaining contents calls sink).calls =
        calls + remaining := by
  intro remaining
  induction remaining with
  | zero =>
    intro turn contents calls sink
    exact ⟨rfl, rfl⟩
  | succ n ih =>
    intro turn contents calls sink
    obtain ⟨parts, hok, hne⟩ := hm turn
    have hlen : ¬ (parts.filterMap (fun p => p.functionCall)).length = 0 := by
      simpa [List.length_eq_zero] using hne
    have step : runFrom model exec ctxDone maxTurns turn (n + 1) contents calls sink =
        runFrom model exec ctxDone maxTurns (turn + 1) n
          (contents ++
            [⟨"model", ensureThoughtSignatures parts⟩,
             ⟨"user", ((parts.filterMap (fun p => p.functionCall)).map
                (dispatchCall exec)).map Prod.fst⟩])
          (calls + 1)
          (sink ++ (((parts.filterMap (fun p => p.functionCall)).map
            (dispatchCall exec)).map Prod.snd).flatten) := by
      simp only [runFrom, hctx turn, Bool.false_eq_true, if_false, hok]
      rw [if_neg hlen]
    rw [step]
    obtain ⟨h1, h2⟩ := ih (turn + 1) _ (calls + 1) _
    exact ⟨h1, by omega⟩

/-- When the first `k` responses all carry function calls and response
`k` carries none (with `k` within budget), the loop returns success
after exactly `k + 1` transport calls. -/
theorem runFrom_success (model : Nat → Except String (List Part))
    (exec : FunctionCall → Except String RMap) (ctxDone : Nat → Bool)
    (maxTurns : Nat) (hctx : ∀ t, ctxDone t = false) :
    ∀ k remaining turn contents calls sink partsK,
      k < remaining →
      (∀ t, t < k → ∃ parts, model (turn + t) = .ok parts ∧
        parts.filterMap (fun p => p.functionCall) ≠ []) →
      model (turn + k) = .ok partsK →
      partsK.filterMap (fun p => p.functionCall) = [] →
      (runFrom model exec ctxDone maxTurns turn remaining contents calls sink).outcome =
        .success ∧
      (runFrom model exec ctxDone maxTurns turn remaining contents calls sink).calls =
        calls + k + 1 := by
  intro k
  induction k with
  | zero =>
    intro remaining turn contents calls sink partsK hlt _ hok hempty
    obtain ⟨n, rfl⟩ : ∃ n, remaining = n + 1 := ⟨remaining - 1, by omega⟩
    rw [Nat.add_zero] at hok
    have hlen : (partsK.filterMap (fun p => p.functionCall)).length = 0 := by
      simp [hempty]
    simp only [runFrom, hctx turn, Bool.false_eq_true, if_false, hok]
    rw [if_pos hlen]
    exact ⟨rfl, rfl⟩
  | succ k ih =>
    intro remaining turn contents calls sink partsK hlt hcalls hok hempty
    obtain ⟨n, rfl⟩ : ∃ n, remaining = n + 1 := ⟨remaining - 1, by omega⟩
    obtain ⟨parts, hok0, hne0⟩ := hcalls 0 (by omega)
    rw [Nat.add_zero] at hok0
    have hlen : ¬ (parts.filterMap (fun p => p.functionCall)).length = 0 := by
      simpa [List.length_eq_zero] using hne0
    have step : runFrom model exec ctxDone maxTurns turn (n + 1) contents calls sink =
        runFrom model exec ctxDone maxTurns (turn + 1) n
          (contents ++
            [⟨"model", ensureThoughtSignatures parts⟩,
             ⟨"user", ((parts.filterMap (fun p => p.functionCall)).map
                (dispatchCall exec)).map Prod.fst⟩])
          (calls + 1)
          (sink ++ (((parts.filterMap (fun p => p.functionCall)).map
            (dispatchCall exec)).map Prod.snd).flatten) := by
      simp only [runFrom, hctx turn, Bool.false_eq_true, if_false, hok0]
      rw [if_neg hlen]
    rw [step]
    obtain ⟨h1, h2⟩ := ih n (turn + 1) _ (calls + 1) _ partsK (by omega)
      (fun t ht => by
        have := hcalls (t + 1) (by omega)
        simpa [Nat.add_assoc, Nat.add_comm 1 t] using this)
      (by simpa [Nat.add_assoc, Nat.add_comm 1 k] using hok)
      hempty
    exact ⟨h1, by omega⟩

/-- C1: with `MaxTurns = N ≥ 1` and a never-cancelled context, a model
that always requests at least one function call makes `Loop.Run` perform
exactly `N` transport calls and fail with the budget-exceeded error
naming `N`; conversely, if the first response with zero function calls
arrives at turn `k < N`, the loop returns success after exactly `k + 1`
transport calls. -/
theorem c1_turn_budget (model : Nat → Except String (List Part))
    (exec : FunctionCall → Except String RMap) (ctxDone : Nat → Bool)
    (N : Nat) (initContents : List Content)
    (_hN : 1 ≤ N) (hctx : ∀ t, ctxDone t = false) :
    ((∀ t, ∃ parts, model t = .ok parts ∧
        parts.filterMap (fun p => p.functionCall) ≠ []) →
      (loopRun model exec ctxDone N initContents).outcome =
        .budget (budgetMessage N) ∧
      (loopRun model exec ctxDone N initContents).calls = N) ∧
    (∀ k partsK, k < N →
      (∀ t, t < k → ∃ parts, model t = .ok parts ∧
        parts.filterMap (fun p => p.functionCall) ≠ []) →
      model k = .ok partsK →
      partsK.filterMap (fun p => p.functionCall) = [] →
      (loopRun model exec ctxDone N initContents).outcome = .success ∧
      (loopRun model exec ctxDone N initContents).calls = k + 1) := by
  constructor
  · intro hm
    obtain ⟨h1, h2⟩ := runFrom_budget model exec ctxDone N hctx hm N 0 initContents 0 []
    simp only [loopRun]
    exact ⟨h1, by omega⟩
  · intro k partsK hk hcalls hok hempty
    obtain ⟨h1, h2⟩ := runFrom_success model exec ctxDone N hctx k N 0 initContents 0 []
      partsK hk (fun t ht => by simpa using hcalls t ht) (by simpa using hok) hempty
    simp only [loopRun]
    exact ⟨h1, by omega⟩

/-- Witness for C1 with `N = 2` and a model that always calls a tool. -/
theorem c1_turn_budget_witness :
    (loopRun (fun _ => .ok [{ functionCall := some ⟨"list_directory", []⟩ }])
        (fun _ => .ok []) (fun _ => false) 2 []).outcome =
      .budget (budgetMessage 2) ∧
    (loopRun (fun _ => .ok [{ functionCall := some ⟨"list_directory", []⟩ }])
        (fun _ => .ok []) (fun _ => false) 2 []).calls = 2 := by
  have h := c1_turn_budget
    (fun _ => .ok [{ functionCall := some ⟨"list_directory", []⟩ }])
    (fun _ => .ok []) (fun _ => false) 2 [] (by omega) (fun _ => rfl)
  exact h.1 (fun t => ⟨[{ functionCall := some ⟨"list_directory", []⟩ }], rfl, by decide⟩)

/-- C6: a turn whose response carries function calls appends exactly one
user-role turn holding one `FunctionResponse` part per call, in arrival
order, and then proceeds to the next turn — for every dispatcher,
including one whose executions all fail (unknown tools, unconnected MCP
servers, ...); a failing call contributes a response map holding the
error message under the "error" key instead of aborting the run. -/
theorem c6_tool_error_isolation (model : Nat → Except String (List Part))
    (exec : FunctionCall → Except String RMap) (ctxDone : Nat → Bool)
    (maxTurns turn remaining : Nat) (contents : List Content) (calls : Nat)
    (sink : List SinkWrite) (parts : List Part)
    (hctx : ctxDone turn = false)
    (hok : model turn = .ok parts)
    (hne : parts.filterMap (fun p => p.functionCall) ≠ []) :
    runFrom model exec ctxDone maxTurns turn (remaining + 1) contents calls sink =
      runFrom model exec ctxDone maxTurns (turn + 1) remaining
        (contents ++
          [⟨"model", ensureThoughtSignatures parts⟩,
           ⟨"user", (parts.filterMap (fun p => p.functionCall)).map
              (fun fc => { functionResp := some ⟨fc.name, execResult exec fc⟩ })⟩])
        (calls + 1)
        (sink ++ ((parts.filterMap (fun p => p.functionCall)).map
          (fun fc => [SinkWrite.toolCall fc.name fc.args,
                      SinkWrite.toolResult fc.name (execResult exec fc)
                        (execIsErr exec fc)])).flatten) ∧
    (∀ fc msg, exec fc = .error msg →
       execResult exec fc = [("error", RVal.str msg)]) := by
  constructor
  · have hlen : ¬ (parts.filterMap (fun p => p.functionCall)).length = 0 := by
      simpa [List.length_eq_zero] using hne
    simp only [runFrom, hctx, Bool.false_eq_true, if_false, hok]
    rw [if_neg hlen]
    simp [dispatchCall, List.map_map, Function.comp_def]
  · intro fc msg h
    simp [execResult, h]

/-- Witness for C6 at a dispatcher that always fails. -/
theorem c6_tool_error_isolation_witness :
    execResult (fun _ => .error "unknown tool: mystery") ⟨"mystery", []⟩ =
      [("error", RVal.str "unknown tool: mystery")] := by
  have h := c6_tool_error_isolation
    (fun _ => .ok [{ functionCall := some ⟨"mystery", []⟩ }])
    (fun _ => .error "unknown tool: mystery") (fun _ => false)
    3 0 2 [] 0 [] [{ functionCall := some ⟨"mystery", []⟩ }]
    rfl rfl (by decide)
  exact h.2 ⟨"mystery", []⟩ "unknown tool: mystery" rfl

/-- Running the streaming event loop over a block of `content` events
appends their texts to the running buffer (in order), forwards exactly
the non-empty ones to the Sink, and touches neither the collected parts
nor the signature. -/
theorem callModelStreamingGo_content_run (xs : List String) :
    ∀ (rest : List StreamEvent) (parts : List Part) (cur : String)
      (sink : List SinkWrite),
      callModelStreamingGo (xs.map contentEv ++ rest) parts cur "" sink =
        callModelStreamingGo rest parts (cur ++ joinAll xs) ""
          (sink ++ (xs.filter (fun t => t != "")).map
            (fun t => SinkWrite.streamEvent (contentEv t))) := by
  induction xs with
  | nil =>
    intro rest parts cur sink
    simp [joinAll]
  | cons x xs ih =>
    intro rest parts cur sink
    simp only [List.map_cons, List.cons_append, callModelStreamingGo, contentEv,
      List.append_eq]
    by_cases hx : x = ""
    · subst hx
      simp
      rw [ih]
      simp [joinAll, String.empty_append, contentEv]
    · simp [hx]
      rw [ih]
      simp [joinAll, hx, String.append_assoc, List.append_assoc, contentEv]

/-- C5: for any interleaving of `content` events, one `tool_call` event,
and further `content` events, the part list the streaming path
reconstructs equals the part list the buffered path collects from the
equivalent candidate content: the leading segments merged into one text
part, the function call, then the trailing segments merged. -/
theorem c5_streaming_buffered_equivalence (xs ys : List String)
    (fc : FunctionCall) :
    (callModelStreamingE (xs.map contentEv ++ [toolCallEv fc] ++ ys.map contentEv)).map
        Prod.fst =
      Except.ok (callModelNonStreamingE (respOfParts (equivCandidateParts xs fc ys))).1 := by
  have hbuf : (callModelNonStreamingE (respOfParts (equivCandidateParts xs fc ys))).1 =
      equivCandidateParts xs fc ys := by
    simp [callModelNonStreamingE, collectParts, respOfParts]
  have htail : ∀ (parts : List Part) (sink : List SinkWrite),
      callModelStreamingGo (ys.map contentEv) parts "" "" sink =
        .ok ((if joinAll ys ≠ "" then parts ++ [{ text := joinAll ys }] else parts),
          sink ++ (ys.filter (fun t => t != "")).map
            (fun t => SinkWrite.streamEvent (contentEv t))) := by
    intro parts sink
    rw [← List.append_nil (ys.map contentEv), callModelStreamingGo_content_run ys]
    simp [callModelStreamingGo, String.empty_append]
  rw [hbuf, callModelStreamingE, List.append_assoc,
    callModelStreamingGo_content_run xs]
  simp only [String.empty_append, List.nil_append, List.cons_append]
  by_cases hxs : joinAll xs = ""
  · simp only [callModelStreamingGo, toolCallEv]
    simp [hxs]
    rw [htail]
    by_cases hys : joinAll ys = "" <;> simp [equivCandidateParts, hxs, hys, Except.map]
  · simp only [callModelStreamingGo, toolCallEv]
    simp [hxs]
    rw [htail]
    by_cases hys : joinAll ys = "" <;> simp [equivCandidateParts, hxs, hys, Except.map]

/-- Concatenation distributes over list append. -/
theorem joinAll_append (a b : List String) :
    joinAll (a ++ b) = joinAll a ++ joinAll b := by
  induction a with
  | nil => simp [joinAll, String.empty_append]
  | cons x a ih => simp [joinAll, ih, String.append_assoc]

/-- Full specification of the streaming event loop on an error-free
event sequence: it succeeds; the Sink receives exactly the `start`,
`done` and non-empty `content` events, in arrival order; no text is lost
(the collected parts' texts concatenate to the buffered prefix plus all
content segments); and the collected function calls are exactly the
`tool_call` events' calls, in arrival order. -/
theorem callModelStreamingGo_spec (events : List StreamEvent) :
    ∀ (parts : List Part) (cur sig : String) (sink : List SinkWrite),
      (∀ e ∈ events, e.type ≠ "error") →
      ∃ out : List Part × List SinkWrite,
        callModelStreamingGo events parts cur sig sink = .ok out ∧
        out.2 = sink ++ forwardedWrites events ∧
        joinAll (out.1.map (fun p => p.text)) =
          joinAll (parts.map (fun p => p.text)) ++
            (cur ++ joinAll (contentTexts events)) ∧
        out.1.filterMap (fun p => p.functionCall) =
          parts.filterMap (fun p => p.functionCall) ++ streamToolCalls events := by
  induction events with
  | nil =>
    intro parts cur sig sink _
    refine ⟨_, rfl, by simp [forwardedWrites], ?_, ?_⟩
    · by_cases hcur : cur = "" <;>
        simp [hcur, contentTexts, joinAll_append, joinAll,
          String.append_empty, String.empty_append]
    · by_cases hcur : cur = "" <;> simp [hcur, streamToolCalls]
  | cons e rest ih =>
    intro parts cur sig sink hne
    have hee : e.type ≠ "error" := hne e (by simp)
    have hrest : ∀ x ∈ rest, x.type ≠ "error" := fun x hx => hne x (by simp [hx])
    by_cases h1 : e.type = "content"
    · have hstep : callModelStreamingGo (e :: rest) parts cur sig sink =
          callModelStreamingGo rest parts
            (if e.text ≠ "" then cur ++ e.text else cur)
            (if e.thoughtSignature ≠ "" then e.thoughtSignature else sig)
            (if e.text ≠ "" then sink ++ [SinkWrite.streamEvent e] else sink) := by
        simp only [callModelStreamingGo, h1]
        simp
      rw [hstep]
      obtain ⟨out, hout, hsink, hjoin, hfc⟩ := ih parts _ _ _ hrest
      refine ⟨out, hout, ?_, ?_, ?_⟩
      · rw [hsink]
        by_cases ht : e.text = "" <;>
          simp [forwardedWrites, h1, ht, List.append_assoc]
      · rw [hjoin]
        by_cases ht : e.text = "" <;>
          simp [contentTexts, h1, ht, joinAll, String.append_assoc,
            String.empty_append]
      · rw [hfc]
        simp [streamToolCalls, h1]
    · by_cases h2 : e.type = "tool_call"
      · rcases htc : e.toolCall with _ | fc
        · have hstep : callModelStreamingGo (e :: rest) parts cur sig sink =
              callModelStreamingGo rest
                (if cur ≠ "" then
                  parts ++ [{ text := cur, thoughtSignature := sig }] else parts)
                (if cur ≠ "" then "" else cur)
                (if cur ≠ "" then "" else sig) sink := by
            simp only [callModelStreamingGo, h2, htc]
            simp [h1]
          rw [hstep]
          obtain ⟨out, hout, hsink, hjoin, hfc⟩ := ih _ _ _ sink hrest
          refine ⟨out, hout, ?_, ?_, ?_⟩
          · rw [hsink]
            simp [forwardedWrites, h1, h2]
          · rw [hjoin]
            by_cases hcur : cur = "" <;>
              simp [contentTexts, h1, h2, hcur, joinAll, joinAll_append,
                String.append_assoc, String.empty_append, String.append_empty]
          · rw [hfc]
            by_cases hcur : cur = "" <;>
              simp [streamToolCalls, h1, h2, hcur, htc]
        · have hstep : callModelStreamingGo (e :: rest) parts cur sig sink =
              callModelStreamingGo rest
                ((if cur ≠ "" then
                    parts ++ [{ text := cur, thoughtSignature := sig }] else parts) ++
                  [{ functionCall := some fc,
                     thoughtSignature := if e.thoughtSignature ≠ "" then
                       e.thoughtSignature else "" }])
                (if cur ≠ "" then "" else cur)
                (if cur ≠ "" then "" else sig) sink := by
            simp only [callModelStreamingGo, h2, htc]
            simp [h1]
          rw [hstep]
          obtain ⟨out, hout, hsink, hjoin, hfc⟩ := ih _ _ _ sink hrest
          refine ⟨out, hout, ?_, ?_, ?_⟩
          · rw [hsink]
            simp [forwardedWrites, h1, h2]
          · rw [hjoin]
            by_cases hcur : cur = "" <;>
              simp [contentTexts, h1, h2, hcur, joinAll, joinAll_append,
                String.append_assoc, String.empty_append, String.append_empty]
          · rw [hfc]
            by_cases hcur : cur = "" <;>
              simp [streamToolCalls, h1, h2, hcur, htc, List.append_assoc]
      · by_cases h3 : e.type = "done"
        · have hstep : callModelStreamingGo (e :: rest) parts cur sig sink =
              callModelStreamingGo rest parts cur sig
                (sink ++ [SinkWrite.streamEvent e]) := by
            simp only [callModelStreamingGo, h3]
            simp [h1, h2]
          rw [hstep]
          obtain ⟨out, hout, hsink, hjoin, hfc⟩ := ih parts cur sig _ hrest
          refine ⟨out, hout, ?_, ?_, ?_⟩
          · rw [hsink]
            simp [forwardedWrites, h1, h2, h3, List.append_assoc]
          · rw [hjoin]
            simp [contentTexts, h1]
          · rw [hfc]
            simp [streamToolCalls, h2]
        · by_cases h4 : e.type = "start"
          · have hstep : callModelStreamingGo (e :: rest) parts cur sig sink =
                callModelStreamingGo rest parts cur sig
                  (sink ++ [SinkWrite.streamEvent e]) := by
              simp only [callModelStreamingGo, h4]
              simp [h1, h2, h3]
            rw [hstep]
            obtain ⟨out, hout, hsink, hjoin, hfc⟩ := ih parts cur sig _ hrest
            refine ⟨out, hout, ?_, ?_, ?_⟩
            · rw [hsink]
              simp [forwardedWrites, h1, h2, h3, h4, List.append_assoc]
            · rw [hjoin]
              simp [contentTexts, h1]
            · rw [hfc]
              simp [streamToolCalls, h2]
          · have hstep : callModelStreamingGo (e :: rest) parts cur sig sink =
                callModelStreamingGo rest parts cur sig sink := by
              simp only [callModelStreamingGo]
              simp [hee, h1, h2, h3, h4]
            rw [hstep]
            obtain ⟨out, hout, hsink, hjoin, hfc⟩ := ih parts cur sig sink hrest
            refine ⟨out, hout, ?_, ?_, ?_⟩
            · rw [hsink]
              simp [forwardedWrites, h1, h2, h3, h4]
            · rw [hjoin]
              simp [contentTexts, h1]
            · rw [hfc]
              simp [streamToolCalls, h2]

/-- C9 (amended): in streaming mode the controller forwards the `start`
and `done` events and every `content` event with non-empty text to the
Sink as they arrive, preserving arrival order — `tool_call` events are
not forwarded — while accumulating content text into a buffer whose
flushes lose no text (the collected parts' texts concatenate to all
content segments) and whose tool-call parts appear in arrival order. -/
theorem c9_sink_forwarding (events : List StreamEvent)
    (hne : ∀ e ∈ events, e.type ≠ "error") :
    ∃ out : List Part × List SinkWrite,
      callModelStreamingE events = .ok out ∧
      out.2 = forwardedWrites events ∧
      joinAll (out.1.map (fun p => p.text)) = joinAll (contentTexts events) ∧
      out.1.filterMap (fun p => p.functionCall) = streamToolCalls events := by
  obtain ⟨out, h1, h2, h3, h4⟩ := callModelStreamingGo_spec events [] "" "" [] hne
  refine ⟨out, h1, by simpa using h2, ?_, by simpa using h4⟩
  rw [h3]
  simp [joinAll, String.empty_append]

/-- Witness for C9 on a concrete error-free stream. -/
theorem c9_sink_forwarding_witness :
    (callModelStreamingE [contentEv "hi", toolCallEv ⟨"list_directory", []⟩]).map
        Prod.snd =
      .ok (forwardedWrites [contentEv "hi", toolCallEv ⟨"list_directory", []⟩]) := by
  obtain ⟨out, h1, h2, -, -⟩ := c9_sink_forwarding
    [contentEv "hi", toolCallEv ⟨"list_directory", []⟩] (by decide)
  rw [h1, Except.map, h2]

/-- Counterexample to C9 as stated: a `tool_call` event arrives, a part
is collected for it, but nothing at all is forwarded to the Sink — the
claim's "forwards every stream event (start, content, tool_call, done)"
fails for `tool_call`. -/
theorem c9_tool_call_not_forwarded :
    callModelStreamingE [toolCallEv ⟨"list_directory", []⟩] =
      .ok ([{ functionCall := some ⟨"list_directory", []⟩ }], []) := by
  simp [callModelStreamingE, callModelStreamingGo, toolCallEv]

/-- The optional last element of a cons. -/
theorem getLast?_cons_eq {α : Type _} (a : α) (l : List α) :
    (a :: l).getLast? = some (l.getLast?.getD a) := by
  induction l generalizing a with
  | nil => rfl
  | cons b l ih =>
    rw [List.getLast?_cons_cons, ih b]
    simp

/-- The keep-the-last-positive-usage fold equals the last chunk of the
list whose total token count is positive (or the initial value). -/
theorem foldl_lastUsage (cs : List GenerateResponse) :
    ∀ u : Option UsageMetadata,
      cs.foldl (fun acc c =>
        if 0 < c.response.usageMetadata.totalTokenCount then
          some c.response.usageMetadata else acc) u =
      (match (cs.filter (fun c =>
          decide (0 < c.response.usageMetadata.totalTokenCount))).getLast? with
       | some c => some c.response.usageMetadata
       | none => u) := by
  induction cs with
  | nil => intro u; rfl
  | cons c cs ih =>
    intro u
    by_cases hc : 0 < c.response.usageMetadata.totalTokenCount
    · rw [List.foldl_cons, if_pos hc, ih]
      rw [List.filter_cons_of_pos (by simpa using hc), getLast?_cons_eq]
      cases hl : (cs.filter (fun c =>
          decide (0 < c.response.usageMetadata.totalTokenCount))).getLast? <;>
        simp [hl]
    · rw [List.foldl_cons, if_neg hc, ih]
      rw [List.filter_cons_of_neg (by simpa using hc)]

/-- The keep-the-last-non-empty-finish-reason fold equals the last
candidate of the list with a non-empty finish reason (or the initial
value). -/
theorem foldl_lastFinish (cds : List Candidate) :
    ∀ fr : String,
      cds.foldl (fun acc cd =>
        if cd.finishReason ≠ "" then cd.finishReason else acc) fr =
      (match (cds.filter (fun cd => cd.finishReason != "")).getLast? with
       | some cd => cd.finishReason
       | none => fr) := by
  induction cds with
  | nil => intro fr; rfl
  | cons cd cds ih =>
    intro fr
    by_cases hc : cd.finishReason = ""
    · rw [List.foldl_cons, if_neg (by simp [hc]), ih]
      rw [List.filter_cons_of_neg (by simp [hc])]
    · rw [List.foldl_cons, if_pos hc, ih]
      rw [List.filter_cons_of_pos (by simpa using hc), getLast?_cons_eq]
      cases hl : (cds.filter (fun cd => cd.finishReason != "")).getLast? <;>
        simp [hl]

/-- A nested fold over generated sublists is a fold over the flattened
list. -/
theorem foldl_flatMap_eq {α β γ : Type _} (g : α → List β) (f : γ → β → γ) :
    ∀ (l : List α) (init : γ),
      l.foldl (fun acc a => (g a).foldl f acc) init = (l.flatMap g).foldl f init := by
  intro l
  induction l with
  | nil => intro init; rfl
  | cons a l ih =>
    intro init
    rw [List.foldl_cons, ih, List.flatMap_cons, List.foldl_append]

/-- The read loop of `GenerateStream` captures exactly the usage
metadata and finish reason a fold over the decoded chunks yields. -/
theorem streamGo_state (decode : String → Option GenerateResponse)
    (endErr : Option String) :
    ∀ (lines : List String) (usage : Option UsageMetadata) (fr : String),
      (streamGo decode endErr lines usage fr).2.1 =
        (decodedChunks decode lines).foldl
          (fun acc c => if 0 < c.response.usageMetadata.totalTokenCount then
            some c.response.usageMetadata else acc) usage ∧
      (streamGo decode endErr lines usage fr).2.2 =
        (decodedChunks decode lines).foldl
          (fun acc c => updateFinish acc c.response.candidates) fr := by
  intro lines
  induction lines with
  | nil => intro usage fr; exact ⟨rfl, rfl⟩
  | cons line rest ih =>
    intro usage fr
    simp only [streamGo, decodedChunks]
    by_cases hskip : line.trim = "" ∨ line.trim.startsWith "data: " = false
    · rw [if_pos hskip, if_pos hskip]
      exact ih usage fr
    · rw [if_neg hskip, if_neg hskip]
      by_cases hterm : line.trim.drop 6 = "[DONE]"
      · rw [if_pos hterm, if_pos hterm]
        exact ⟨rfl, rfl⟩
      · rw [if_neg hterm, if_neg hterm]
        cases hdec : decode (line.trim.drop 6) with
        | none => exact ih usage fr
        | some chunk => exact ih _ _

/-- Every event the read loop itself pushes is a `content`, `tool_call`
or `error` event — never a `done` or `start`. -/
theorem streamGo_event_types (decode : String → Option GenerateResponse)
    (endErr : Option String) :
    ∀ (lines : List String) (usage : Option UsageMetadata) (fr : String),
      ∀ e ∈ (streamGo decode endErr lines usage fr).1,
        e.type = "content" ∨ e.type = "tool_call" ∨ e.type = "error" := by
  intro lines
  induction lines with
  | nil =>
    intro usage fr e he
    cases endErr with
    | none => simp [streamGo] at he
    | some msg =>
      simp [streamGo] at he
      subst he
      right; right; rfl
  | cons line rest ih =>
    intro usage fr e he
    simp only [streamGo] at he
    by_cases hskip : line.trim = "" ∨ line.trim.startsWith "data: " = false
    · rw [if_pos hskip] at he
      exact ih usage fr e he
    · rw [if_neg hskip] at he
      by_cases hterm : line.trim.drop 6 = "[DONE]"
      · rw [if_pos hterm] at he
        simp at he
      · rw [if_neg hterm] at he
        cases hdec : decode (line.trim.drop 6) with
        | none =>
          rw [hdec] at he
          exact ih usage fr e he
        | some chunk =>
          rw [hdec] at he
          rcases List.mem_append.mp he with h | h
          · rcases List.mem_flatMap.mp h with ⟨cand, -, hcand⟩
            rcases List.mem_flatMap.mp hcand with ⟨p, -, hp⟩
            simp only [partEvents] at hp
            rcases List.mem_append.mp hp with hx | hx
            · by_cases hptext : p.text = ""
              · simp [hptext] at hx
              · simp [hptext] at hx
                subst hx
                left; rfl
            · cases hfc : p.functionCall with
              | none => simp [hfc] at hx
              | some fc =>
                simp [hfc] at hx
                subst hx
                right; left; rfl
          · exact ih _ _ e h

/-- C8 (amended): for every decoded stream, the trailing `done` event —
carrying the usage metadata of the last chunk with a positive total
token count and the finish reason of the last candidate carrying one —
is emitted exactly once as the final event before the channel closes,
after the stream ends naturally, via the `[DONE]` sentinel, or after an
`error` event (in which case the `done` event follows the `error`
event). -/
theorem c8_done_event (decode : String → Option GenerateResponse)
    (model : String) (lines : List String) (endErr : Option String) :
    ((generateStreamEvents decode model lines endErr).filter
        (fun e => e.type == "done")).length = 1 ∧
    (generateStreamEvents decode model lines endErr).getLast? =
      some { type := "done",
             usage := capturedUsage decode lines,
             finishReason := capturedFinish decode lines } := by
  obtain ⟨hu, hf⟩ := streamGo_state decode endErr lines none ""
  constructor
  · have hinner : ((streamGo decode endErr lines none "").1.filter
        (fun e => e.type == "done")) = [] := by
      rw [List.filter_eq_nil_iff]
      intro e he
      rcases streamGo_event_types decode endErr lines none "" e he with h | h | h <;>
        simp [h]
    simp [generateStreamEvents, List.filter_append, hinner]
  · simp only [generateStreamEvents]
    have husage : (streamGo decode endErr lines none "").2.1 =
        capturedUsage decode lines := by
      rw [hu, foldl_lastUsage, capturedUsage]
      cases hl : ((decodedChunks decode lines).filter (fun c =>
          decide (0 < c.response.usageMetadata.totalTokenCount))).getLast? <;>
        simp [hl]
    have hfinish : (streamGo decode endErr lines none "").2.2 =
        capturedFinish decode lines := by
      rw [hf]
      simp only [updateFinish]
      rw [foldl_flatMap_eq, foldl_lastFinish, capturedFinish]
      cases hl : (((decodedChunks decode lines).flatMap
          (fun c => c.response.candidates)).filter
          (fun cd => cd.finishReason != "")).getLast? <;>
        simp [hl]
    rw [List.getLast?_concat]
    simp [husage, hfinish]

/-- Counterexample to C8 as stated: when the body read fails (a
transport error after zero lines), the goroutine pushes the `error`
event and then still pushes the trailing `done` event — the claim's
"never emitted after an error event" is false. -/
theorem c8_done_after_error :
    generateStreamEvents (fun _ => none) "gemini-2.5-pro" [] (some "read failed") =
      [{ type := "start", model := "gemini-2.5-pro" },
       { type := "error", error := "read failed" },
       { type := "done", usage := none, finishReason := "" }] ∧
    (generateStreamEvents (fun _ => none) "gemini-2.5-pro" []
        (some "read failed")).map (fun e => e.type) =
      ["start", "error", "done"] := by
  constructor <;> rfl

end Gmn
